import Mathlib

/-!
Verification of the logic-programming engine in `paip/logic.py`: term model,
binding environments, unification (`unify`), variable lookup (`Var.lookup`,
`Relation.bind_vars`), the clause database (`Database`), clause renaming
(`Clause.recursive_rename`) and the backtracking resolution procedure
(`prove` / `prove_all`).

Embedding conventions:

* Python terms (`Atom`, `Var`, `Relation`, `Clause`) become the inductive
  `Term`.  Python stores relation arguments and clause bodies as plain
  lists; these lists are represented inside `Term` by the two extra
  constructors `tnil` / `tcons` so that every operation of the source is a
  plain structural recursion (and hence kernel-computable).  `tlist`
  converts a Lean list of terms into this representation and `toList`
  converts back.  Structural equality of `Term` coincides with the
  `__eq__` methods of the source classes (equality of wrapped value /
  variable name / predicate plus argument list / head plus body).
* A Python binding dictionary becomes `Env := List (String × Term)`
  (association list keyed by variable name; all extensions in the source
  only add fresh keys, so first-match lookup is exactly dict lookup).
  The `bindings` parameter of `unify`, which is either a dict or the
  failure value `False`, becomes `Option Env` with `none` for `False`.
* Functions whose Python counterparts can recurse unboundedly
  (`unify`, `Var.lookup`/`Relation.bind_vars`, `prove`/`prove_all`) take a
  fuel argument; the outer `Option` of their result is `none` exactly when
  the fuel runs out.  The chain-following `while` loop of `Var.lookup` is
  `chase`; its fuel `env.length + 1` is proved sufficient below
  (`chase_stable`, `chaseMeasure_le`).
* The database dict of `Database` becomes an association list
  `Db := List (String × Entry)`; a stored primitive procedure (a host
  callback, §6 of the design) is represented by an opaque numeric handle
  `Entry.prim`, and `prove` consults a caller-supplied interpretation
  `ap` of those handles.  No theorem below exercises a primitive.
* `prove` threads the mutable state of the source explicitly: the
  database (mutated by `Database.query`'s `setdefault`) and the global
  `Var.counter` used by `Clause.recursive_rename`.
-/

namespace Paip

/-- Terms of the engine: `atom` is `Atom` (the wrapped literal modelled as a
string, an opaque equality-comparable value), `var` is `Var` (identified by
name), `rel` is `Relation` (predicate name plus argument list), `clause` is
`Clause` (head plus body list).  `tnil`/`tcons` encode the Python lists that
hold relation arguments and clause bodies. -/
inductive Term
| atom (s : String)
| var (v : String)
| rel (p : String) (args : Term)
| clause (head : Term) (body : Term)
| tnil
| tcons (hd tl : Term)
deriving DecidableEq

/-- Build the encoded argument list from a Lean list. -/
def tlist : List Term → Term
| [] => .tnil
| t :: ts => .tcons t (tlist ts)

/-- Decode an encoded argument list (junk terms decode to `[]`). -/
def toList : Term → List Term
| .tcons t ts => t :: toList ts
| _ => []

/-- Length of an encoded argument list (`len` in the source). -/
def tlen : Term → Nat
| .tcons _ ts => tlen ts + 1
| _ => 0

/-- A binding dictionary: keys are variable names, unique by construction
(the source only ever adds a binding for a variable that is unbound). -/
abbrev Env := List (String × Term)

/-- Dictionary lookup (`bindings.get(v)` / `v in bindings`). -/
def envLookup (env : Env) (v : String) : Option Term :=
  env.lookup v

/-- Two environments are equal as mappings when every variable name is sent
to the same binding by both (dictionary equality). -/
def envEqMap (e₁ e₂ : Env) : Prop :=
  ∀ v : String, envLookup e₁ v = envLookup e₂ v

/-- Whether a term is a `Var` (`isinstance(x, Var)` in the source). -/
def isVar : Term → Bool
| .var _ => true
| _ => false

/-- Whether a term is a `Relation`. -/
def isRel : Term → Bool
| .rel _ _ => true
| _ => false

/-- Python truthiness of `unify`'s result as used by `prove` (`not unified`):
the failure value `False` and the empty dictionary are both falsy. -/
def isFalsy : Option Env → Bool
| none => true
| some e => e.isEmpty

/-- The `for i, xi in enumerate(x.args)` loop of `unify` (logic.py:83-88 and
101-105): unify corresponding argument pairs left to right, threading the
environment through each step; a `False` environment stops the loop at once
(`unify` returns `False` immediately on a `False` input, and the loop
re-checks after every step).  `u` is the unifier for one pair, already
supplied with its fuel.  The accumulator `b`'s outer `Option` is fuel
exhaustion, the inner one failure. -/
def unifyArgs (u : Term → Term → Option Env → Option (Option Env)) :
    Term → Term → Option (Option Env) → Option (Option Env)
| .tcons x xs, .tcons y ys, b =>
  (match b with
   | none => none
   | some none => some none
   | some (some e) => unifyArgs u xs ys (u x y (some e)))
| _, _, b => b

/-- `unify(x, y, bindings)` of logic.py:45-109.  `bindings == False`
propagates failure; a copy of the dictionary is taken (pure values make the
copy the identity); structurally equal terms unify trivially; a `Var` on the
left is dereferenced when bound, else the right side is dereferenced when it
is a bound `Var`, else the binding `x ↦ y` is added; a `Var` on the right
only swaps the arguments; two `Relation`s must agree on predicate name and
arity and then unify their arguments left to right; two `Clause`s must agree
on body length and then unify head and body terms; any other pairing fails.
The source's membership tests `x in bindings` / `y in bindings` can only
succeed for `Var` terms: the dictionary's keys are all `Var`s (bindings are
only ever added under a `Var`), and a `Var` key never compares equal to an
`Atom`, `Relation` or `Clause`, so for a non-`Var` the test is `False` —
hence the lookups below are guarded by the `var` pattern. -/
def unify : Nat → Term → Term → Option Env → Option (Option Env)
| 0, _, _, _ => none
| f+1, x, y, b =>
  match b with
  | none => some none
  | some env =>
    if x = y then some (some env) else
    match x, y with
    | .var vx, _ =>
      (match envLookup env vx with
       | some t => unify f t y (some env)
       | none =>
         match (match y with | .var vy => envLookup env vy | _ => none) with
         | some t => unify f x t (some env)
         | none => some (some (env ++ [(vx, y)])))
    | _, .var _ => unify f y x (some env)
    | .rel p pa, .rel q qa =>
      if p = q then
        (if tlen pa = tlen qa then unifyArgs (unify f) pa qa (some (some env))
         else some none)
      else some none
    | .clause h₁ b₁, .clause h₂ b₂ =>
      if tlen b₁ = tlen b₂ then unifyArgs (unify f) b₁ b₂ (unify f h₁ h₂ (some env))
      else some none
    | _, _ => some none

/-- The chain-following `while` loop of `Var.lookup` (logic.py:170-175),
with its visited list `encountered`: while the current binding is a bound
`Var` whose own binding has not been encountered yet, step to that binding
and record it.  The source loop is total; here it carries fuel, and
`chase_stable` below shows any fuel above `chaseMeasure` (hence the
`env.length + 1` used by `lookupVar`) yields the loop's exact result. -/
def chase : Nat → Env → List Term → Term → Term
| 0, _, _, b => b
| f+1, env, enc, b =>
  match b with
  | .var w =>
    (match envLookup env w with
     | some nxt => if nxt ∈ enc then b else chase f env (enc ++ [nxt]) nxt
     | none => b)
  | _ => b

/-- Number of dictionary values not yet on the visited list: the quantity
that strictly decreases at every iteration of the `while` loop of
`Var.lookup`. -/
def chaseMeasure (env : Env) (enc : List Term) : Nat :=
  ((env.map Prod.snd).filter (fun t => !(t ∈ enc : Bool))).length

/-- The body of `Relation.bind_vars` (logic.py:208-213): each argument that
is a `Var` with a binding (`arg in bindings`) is replaced by
`arg.lookup(bindings)`, every other argument (atoms, unbound variables, and
in particular nested `Relation`s, which are never dictionary keys) is kept
unchanged.  `lk` is `Var.lookup` in the same environment, already supplied
with its fuel; its `none` (fuel exhaustion) propagates.  The inner
`r.getD a` covers the source appending whatever `lookup` returned; for a
bound variable `lookup` never returns Python `None`, so the default is
unreachable. -/
def bindArgs (lk : String → Option (Option Term)) (env : Env) : Term → Option Term
| .tcons a as_ =>
  (match
    (match a with
     | .var w =>
       (match envLookup env w with
        | some _ => (lk w).map (fun r => r.getD a)
        | none => some a)
     | _ => some a) with
   | none => none
   | some h =>
     match bindArgs lk env as_ with
     | none => none
     | some t => some (.tcons h t))
| t => some t

/-- `Var.lookup(bindings)` (logic.py:161-181): read the variable's binding
(`None`, i.e. the inner `none`, when unbound), follow the chain of bindings
with cycle detection, and if the final term is a `Relation` expand it with
`Relation.bind_vars` in the same environment.  Fuel is consumed only by the
mutual recursion with `bind_vars`. -/
def lookupVar : Nat → Env → String → Option (Option Term)
| 0, _, _ => none
| f+1, env, v =>
  match envLookup env v with
  | none => some none
  | some b0 =>
    match chase (env.length + 1) env [Term.var v, b0] b0 with
    | .rel p args => (bindArgs (lookupVar f env) env args).map (fun l => some (.rel p l))
    | t => some (some t)

/-- `Relation.bind_vars` as called on a whole relation (logic.py:208-213);
on a non-relation the source would raise `AttributeError` (no such method),
unreachable for the well-formed clauses these theorems use. -/
def bindVarsRel (lk : String → Option (Option Term)) (env : Env) : Term → Option Term
| .rel p args => (bindArgs lk env args).map (.rel p ·)
| t => some t

/-- Body-list helper of `Clause.bind_vars` (logic.py:251): bind each body
relation. -/
def bindVarsBody (lk : String → Option (Option Term)) (env : Env) : Term → Option Term
| .tcons r rs =>
  (match bindVarsRel lk env r with
   | none => none
   | some h =>
     match bindVarsBody lk env rs with
     | none => none
     | some t => some (.tcons h t))
| t => some t

/-- `Clause.bind_vars(bindings)` (logic.py:248-252): bind the head and every
body relation. -/
def bindVarsClause (lk : String → Option (Option Term)) (env : Env) : Term → Option Term
| .clause h b =>
  (match bindVarsRel lk env h with
   | none => none
   | some h' =>
     match bindVarsBody lk env b with
     | none => none
     | some b' => some (.clause h' b'))
| t => some t

/-- The `get_vars` family (logic.py:130-131, 186-187, 222-227, 268-273) in
accumulator form: walk the term left to right and append each variable not
seen yet.  The source's `vars.extend(v for v in arg.get_vars() if v not in
vars)` produces exactly the first-occurrence order of this traversal. -/
def getVarsAcc : Term → List Term → List Term
| .atom _, acc => acc
| .var v, acc => if (.var v : Term) ∈ acc then acc else acc ++ [.var v]
| .rel _ args, acc => getVarsAcc args acc
| .clause h b, acc => getVarsAcc b (getVarsAcc h acc)
| .tnil, acc => acc
| .tcons a as_, acc => getVarsAcc as_ (getVarsAcc a acc)

/-- All variables of a term, first occurrence first, no duplicates. -/
def getVars (t : Term) : List Term :=
  getVarsAcc t []

/-- The `rename_vars(replacements)` family (logic.py:127-128, 183-184,
215-220, 254-260): replace each variable by its entry in the replacement
dictionary (`replacements.get(self, self)`), recursively through relations
and clauses. -/
def renameVars (repl : List (String × String)) : Term → Term
| .atom a => .atom a
| .var v =>
  (match repl.lookup v with
   | some w => .var w
   | none => .var v)
| .rel p args => .rel p (renameVars repl args)
| .clause h b => .clause (renameVars repl h) (renameVars repl b)
| .tnil => .tnil
| .tcons a as_ => .tcons (renameVars repl a) (renameVars repl as_)

/-- The name `var%d` produced by `Var.get_unused_var` (logic.py:139-144). -/
def freshName (n : Nat) : String :=
  "var" ++ toString n

/-- `Clause.recursive_rename` (logic.py:262-266) together with the global
counter `Var.counter`: build the replacement dictionary sending the clause's
variables, in `get_vars` order, to `var<cnt>`, `var<cnt+1>`, …, apply it,
and return the advanced counter. -/
def recursiveRename (c : Term) (cnt : Nat) : Term × Nat :=
  let vs := getVars c
  let names := vs.map (fun t => match t with | .var v => v | _ => "")
  let repl := names.enum.map (fun iv => (iv.2, freshName (cnt + iv.1)))
  (renameVars repl c, cnt + names.length)

/-- A value of the database dictionary `Database.clauses` (logic.py:18): a
predicate name maps either to the list of stored clauses (facts and rules,
in insertion order) or to a primitive procedure, represented by an opaque
handle interpreted by the `ap` argument of `prove`. -/
inductive Entry
| clauses (cs : List Term)
| prim (pid : Nat)
deriving DecidableEq

/-- The database: the dictionary of `Database`, keyed by predicate name. -/
abbrev Db := List (String × Entry)

/-- Dictionary assignment `self.clauses[name] = v`: replace in place when
the key exists, append otherwise. -/
def setKey : Db → String → Entry → Db
| [], p, e => [(p, e)]
| (q, e₀) :: rest, p, e =>
  if q = p then (q, e) :: rest else (q, e₀) :: setKey rest p e

/-- `Database.query(pred)` (logic.py:31-33): `setdefault(pred, [])` returns
the stored entry and, when the key is unknown, first inserts an empty clause
list — so the query also returns the possibly-grown database. -/
def query (db : Db) (p : String) : Entry × Db :=
  match db.lookup p with
  | some e => (e, db)
  | none => (Entry.clauses [], db ++ [(p, Entry.clauses [])])

/-- `Database.store(clause)` (logic.py:22-25):
`setdefault(clause.head.pred, []).append(clause)`.  `none` models the
`AttributeError` the source raises when the key holds a primitive procedure
(no `append`) or the clause head is not a `Relation` (no `pred`). -/
def store (c : Term) (db : Db) : Option Db :=
  match c with
  | .clause (.rel p _) _ =>
    (match db.lookup p with
     | some (.clauses cs) => some (setKey db p (.clauses (cs ++ [c])))
     | some (.prim _) => none
     | none => some (db ++ [(p, Entry.clauses [c])]))
  | _ => none

/-- `Database.define_primitive(name, fn)` (logic.py:27-29). -/
def definePrimitive (name : String) (pid : Nat) (db : Db) : Db :=
  setKey db name (.prim pid)

/-- `goal.pred`; on a non-relation the source raises `AttributeError`,
unreachable for the relation goals used below. -/
def predOf : Term → String
| .rel p _ => p
| _ => ""

/-- `goal.args` as a Lean list. -/
def argsOf : Term → List Term
| .rel _ args => toList args
| _ => []

/-- `clause.head`; identity on non-clauses (unreachable, see `predOf`). -/
def headOf : Term → Term
| .clause h _ => h
| t => t

/-- `clause.body` (encoded list). -/
def bodyOf : Term → Term
| .clause _ b => b
| _ => .tnil

/-- The type of the caller-supplied interpretation of primitive-procedure
handles: a primitive receives `(goal.args, bindings, db, remaining)` and
returns an extended environment or failure (design §6; mutation of the
database by a primitive is not modelled — no theorem below runs one). -/
abbrev PrimEval := Nat → List Term → Option Env → Db → List Term → Option Env

/-- The three mutually recursive control states of the resolution engine:
`all` is `prove_all(goals, bindings, db)` (logic.py:278-283), `one` is
`prove(goal, bindings, db, remaining)` (logic.py:286-346), `loop` is
`prove`'s `for clause in query` loop over the remaining candidate clauses,
in stored order, with `bindings` already known not to be `False`. -/
inductive Call
| all (goals : List Term) (b : Option Env)
| one (goal : Term) (b : Option Env) (remaining : List Term)
| loop (goal : Term) (env : Env) (remaining : List Term) (cs : List Term)

/-- The resolution engine `prove` / `prove_all` (logic.py:278-346), with the
mutable state threaded explicitly: the result carries the `prove` return
value (`False` or an environment), the database (which `Database.query` may
grow) and the `Var.counter` value (advanced by `recursive_rename`).  The
outer `Option` is fuel exhaustion; each transition of the source consumes
one fuel unit.

`loop` follows logic.py:314-346 line by line: rename the candidate apart;
unify the goal with the renamed head; `if not unified: continue` — note this
is Python truthiness, so an *empty* successful environment is also skipped;
apply the bindings to the renamed clause and reject it when its head is
structurally equal to one of its own body relations; prove the clause body
followed by the remaining goals; `if not extended: continue` (truthiness
again); otherwise return the extended bindings.  An exhausted loop returns
`False`. -/
def engine (ap : PrimEval) : Nat → Call → Db → Nat → Option (Option Env × Db × Nat)
| 0, _, _, _ => none
| f+1, c, db, cnt =>
  match c with
  | .all goals b =>
    (match b with
     | none => some (none, db, cnt)
     | some env =>
       match goals with
       | [] => some (some env, db, cnt)
       | g :: rest => engine ap f (.one g (some env) rest) db cnt)
  | .one goal b rem =>
    (match b with
     | none => some (none, db, cnt)
     | some env =>
       let q := query db (predOf goal)
       match q.1 with
       | .clauses cs =>
         if cs.isEmpty then some (none, q.2, cnt)
         else engine ap f (.loop goal env rem cs) q.2 cnt
       | .prim pid => some (ap pid (argsOf goal) (some env) q.2 rem, q.2, cnt))
  | .loop goal env rem cs =>
    (match cs with
     | [] => some (none, db, cnt)
     | c :: cs' =>
       let rc := recursiveRename c cnt
       match unify f goal (headOf rc.1) (some env) with
       | none => none
       | some u =>
         if isFalsy u then engine ap f (.loop goal env rem cs') db rc.2
         else
           match bindVarsClause (lookupVar f (u.getD [])) (u.getD []) rc.1 with
           | none => none
           | some bound =>
             if headOf bound ∈ toList (bodyOf bound) then
               engine ap f (.loop goal env rem cs') db rc.2
             else
               match engine ap f (.all (toList (bodyOf bound) ++ rem) u) db rc.2 with
               | none => none
               | some (ext, db₂, cnt₂) =>
                 if isFalsy ext then engine ap f (.loop goal env rem cs') db₂ cnt₂
                 else some (ext, db₂, cnt₂))

/-- `prove_all(goals, bindings, db)` (logic.py:278-283). -/
def proveAll (ap : PrimEval) (f : Nat) (goals : List Term) (b : Option Env)
    (db : Db) (cnt : Nat) : Option (Option Env × Db × Nat) :=
  engine ap f (.all goals b) db cnt

/-- `prove(goal, bindings, db, remaining)` (logic.py:286-346). -/
def prove (ap : PrimEval) (f : Nat) (goal : Term) (b : Option Env) (db : Db)
    (cnt : Nat) (rem : List Term) : Option (Option Env × Db × Nat) :=
  engine ap f (.one goal b rem) db cnt

/-- The candidate-clause loop of `prove` (logic.py:314-346). -/
def proveClauses (ap : PrimEval) (f : Nat) (goal : Term) (env : Env) (db : Db)
    (cnt : Nat) (rem : List Term) (cs : List Term) : Option (Option Env × Db × Nat) :=
  engine ap f (.loop goal env rem cs) db cnt

/-- A trivial interpretation of primitive handles (always fails); the
closed evaluations below never reach a primitive. -/
def apNone : PrimEval := fun _ _ _ _ _ => none

/-- A heap of binding dictionaries, for stating that `unify` never mutates
its caller's dictionary: each Python dict object is a cell of the heap,
identified by its index; `dict(bindings)` allocates a fresh cell and
`bindings[x] = y` mutates one cell in place. -/
abbrev Heap := List Env

/-- Read a heap cell. -/
def heapGet (σ : Heap) (i : Nat) : Env :=
  σ.getD i []

/-- The argument loop of `unify` at the heap level (logic.py:83-88 and
98-105): thread the current dictionary reference through the pairwise
unifications, short-circuiting on `False` exactly as `unifyArgs` does. -/
def unifyArgsSt (u : Term → Term → Option Nat → Heap → Option (Option Nat) × Heap) :
    Term → Term → Option (Option Nat) → Heap → Option (Option Nat) × Heap
| .tcons x xs, .tcons y ys, b, σ =>
  (match b with
   | none => (none, σ)
   | some none => (some none, σ)
   | some (some i) =>
     match u x y (some i) σ with
     | (r, σ') => unifyArgsSt u xs ys r σ')
| _, _, b, σ => (b, σ)

/-- `unify` again (logic.py:45-109), now at the level of dictionary objects:
the `bindings` argument is `none` for `False` or a heap reference; the call
first performs `bindings = dict(bindings)` — allocating the fresh cell `j`
that holds a copy of the caller's dictionary — and every later mutation
(`bindings[x] = y`) targets that fresh cell.  The branch structure is
exactly that of `unify` above. -/
def unifySt : Nat → Term → Term → Option Nat → Heap → Option (Option Nat) × Heap
| 0, _, _, _, σ => (none, σ)
| f+1, x, y, b, σ =>
  match b with
  | none => (some none, σ)
  | some i =>
    let e := heapGet σ i
    let j := σ.length
    let σ₁ := σ ++ [e]
    if x = y then (some (some j), σ₁) else
    match x, y with
    | .var vx, _ =>
      (match envLookup e vx with
       | some t => unifySt f t y (some j) σ₁
       | none =>
         match (match y with | .var vy => envLookup e vy | _ => none) with
         | some t => unifySt f x t (some j) σ₁
         | none => (some (some j), σ₁.set j (e ++ [(vx, y)])))
    | _, .var _ => unifySt f y x (some j) σ₁
    | .rel p pa, .rel q qa =>
      if p = q then
        (if tlen pa = tlen qa then unifyArgsSt (unifySt f) pa qa (some (some j)) σ₁
         else (some none, σ₁))
      else (some none, σ₁)
    | .clause h₁ b₁, .clause h₂ b₂ =>
      if tlen b₁ = tlen b₂ then
        (match unifySt f h₁ h₂ (some j) σ₁ with
         | (r, σ₂) => unifyArgsSt (unifySt f) b₁ b₂ r σ₂)
      else (some none, σ₁)
    | _, _ => (some none, σ₁)

/-- Heap evolution by calls of `unifySt`: the heap only grows, and every
pre-existing cell keeps its exact contents. -/
def heapFrame (σ' σ : Heap) : Prop :=
  σ.length ≤ σ'.length ∧ ∀ k, k < σ.length → heapGet σ' k = heapGet σ k

/-! Helper lemmas. -/

/-- Structurally equal terms unify trivially, returning the environment. -/
theorem unify_self (f : Nat) (t : Term) (env : Env) :
    unify (f+1) t t (some env) = some (some env) := by
  simp [unify]

/-- The argument loop of `unify` on two identical argument lists returns the
threaded environment unchanged. -/
theorem unifyArgs_self (f : Nat) (as_ : Term) (env : Env) :
    unifyArgs (unify (f+1)) as_ as_ (some (some env)) = some (some env) := by
  induction as_ generalizing env with
  | tcons a as_ ih_a ih_as => simp [unifyArgs, unify_self, ih_as]
  | _ => simp [unifyArgs]

/-- Once the threaded environment is the failure value, the argument loop
returns failure without looking at the remaining pairs. -/
theorem unifyArgs_fail (u : Term → Term → Option Env → Option (Option Env))
    (xs ys : Term) : unifyArgs u xs ys (some none) = some none := by
  cases xs <;> cases ys <;> simp [unifyArgs]

/-! Claim theorems. -/

/-- C4: unify with identical terms returns the environment unchanged as a
mapping (the source returns `dict(bindings)`, a copy that is equal as a
mapping — the identity in this value-level embedding), and the failure
value propagates unchanged. -/
theorem c4_unify_identical (f : Nat) (t : Term) (env : Env) :
    unify (f+1) t t (some env) = some (some env) ∧ unify (f+1) t t none = some none := by
  exact ⟨unify_self f t env, by simp [unify]⟩

/-- C7: unifying two `Relation`s fails when their predicate names differ
(part 1) or their arities differ (part 2); when both match the arguments
are unified left to right with the environment threaded through each step
(part 3, where the structural-equality shortcut of the source coincides
with the threaded loop by `unifyArgs_self`); the loop short-circuits: as
soon as one pair fails the result is failure no matter what the remaining
pairs are (part 4), and on success of a pair the loop continues on the
extended environment (part 5). -/
theorem c7_relation_unification :
    (∀ (f : Nat) (p q : String) (pa qa : Term) (env : Env), p ≠ q →
      unify (f+1) (.rel p pa) (.rel q qa) (some env) = some none) ∧
    (∀ (f : Nat) (p : String) (pa qa : Term) (env : Env), tlen pa ≠ tlen qa →
      unify (f+1) (.rel p pa) (.rel p qa) (some env) = some none) ∧
    (∀ (f : Nat) (p : String) (pa qa : Term) (env : Env), tlen pa = tlen qa →
      unify (f+2) (.rel p pa) (.rel p qa) (some env) =
        unifyArgs (unify (f+1)) pa qa (some (some env))) ∧
    (∀ (f : Nat) (x y xs ys : Term) (env : Env),
      unify f x y (some env) = some none →
      unifyArgs (unify f) (.tcons x xs) (.tcons y ys) (some (some env)) = some none) ∧
    (∀ (f : Nat) (x y xs ys : Term) (env : Env) (e' : Env),
      unify f x y (some env) = some (some e') →
      unifyArgs (unify f) (.tcons x xs) (.tcons y ys) (some (some env)) =
        unifyArgs (unify f) xs ys (some (some e'))) := by
  refine ⟨?_, ?_, ?_, ?_, ?_⟩
  · intro f p q pa qa env h
    simp [unify, Term.rel.injEq, h]
  · intro f p pa qa env h
    have hne : Term.rel p pa ≠ Term.rel p qa := by
      intro hc
      cases hc
      exact h rfl
    simp [unify, hne, h]
  · intro f p pa qa env h
    by_cases hpq : pa = qa
    · subst hpq
      rw [unify_self, unifyArgs_self]
    · have hne : Term.rel p pa ≠ Term.rel p qa := by
        intro hc
        cases hc
        exact hpq rfl
      simp [unify, hne, h]
  · intro f x y xs ys env h
    simp [unifyArgs, h, unifyArgs_fail]
  · intro f x y xs ys env e' h
    simp [unifyArgs, h]

/-- Witness for C7 at concrete inputs, including the two examples of the
design document: `unify(p(a), q(a), {})` and `unify(p(a), p(a, b), {})`
both fail, a failing first pair short-circuits, and a succeeding first
pair threads the extension. -/
theorem c7_relation_unification_witness :
    unify 1 (.rel "p" (tlist [.atom "a"])) (.rel "q" (tlist [.atom "a"])) (some []) = some none ∧
    unify 1 (.rel "p" (tlist [.atom "a"])) (.rel "p" (tlist [.atom "a", .atom "b"])) (some []) = some none ∧
    unify 2 (.rel "p" (tlist [.var "x"])) (.rel "p" (tlist [.atom "a"])) (some []) =
      unifyArgs (unify 1) (tlist [.var "x"]) (tlist [.atom "a"]) (some (some [])) ∧
    unifyArgs (unify 1) (.tcons (.atom "a") (tlist [.var "z"]))
      (.tcons (.atom "b") (tlist [.atom "c"])) (some (some [])) = some none ∧
    unifyArgs (unify 1) (.tcons (.var "x") (tlist [.var "z"]))
      (.tcons (.atom "a") (tlist [.atom "c"])) (some (some [])) =
      unifyArgs (unify 1) (tlist [.var "z"]) (tlist [.atom "c"]) (some (some [("x", .atom "a")])) := by
  refine ⟨?_, ?_, ?_, ?_, ?_⟩
  · exact c7_relation_unification.1 0 "p" "q" _ _ [] (by decide)
  · exact c7_relation_unification.2.1 0 "p" _ _ [] (by decide)
  · exact c7_relation_unification.2.2.1 0 "p" _ _ [] (by decide)
  · exact c7_relation_unification.2.2.2.1 1 _ _ _ _ [] (by decide)
  · exact c7_relation_unification.2.2.2.2 1 _ _ _ _ [] [("x", .atom "a")] (by decide)

/-- C2 fails as stated: for two distinct unbound variables the two
argument orders succeed with oppositely oriented bindings, and the
resulting dictionaries are not equal as mappings. -/
theorem c2_counterexample :
    unify 1 (.var "x") (.var "y") (some []) = some (some [("x", .var "y")]) ∧
    unify 1 (.var "y") (.var "x") (some []) = some (some [("y", .var "x")]) ∧
    ¬ envEqMap [("x", .var "y")] [("y", .var "x")] := by
  refine ⟨by decide, by decide, fun h => absurd (h "x") (by decide)⟩

/-- C2 amended: symmetry holds on the nose when exactly one of the two
terms is a variable — `unify(x, y, env)` with non-variable `x` and
variable `y` delegates to `unify(y, x, env)` and returns the identical
environment (part 1); but when `x` and `y` are two distinct unbound
variables, the two orders succeed with oppositely oriented extensions
(`env + [x ↦ y]` versus `env + [y ↦ x]`, part 2), which are in general not
equal as mappings. -/
theorem c2_amended :
    (∀ (f : Nat) (x y : Term) (env : Env), isVar x = false → isVar y = true →
      unify (f+1) x y (some env) = unify f y x (some env)) ∧
    (∀ (f : Nat) (vx vy : String) (env : Env), vx ≠ vy →
      envLookup env vx = none → envLookup env vy = none →
      unify (f+1) (.var vx) (.var vy) (some env) = some (some (env ++ [(vx, .var vy)]))) := by
  constructor
  · intro f x y env hx hy
    cases x <;> cases y <;> simp_all [unify, isVar]
  · intro f vx vy env hne h1 h2
    simp [unify, Term.var.injEq, hne, h1, h2]

/-- A dictionary lookup result is one of the dictionary's values. -/
theorem lookup_mem_values (env : Env) (w : String) (t : Term)
    (h : envLookup env w = some t) : t ∈ env.map Prod.snd := by
  induction env with
  | nil => simp [envLookup, List.lookup] at h
  | cons kv rest ih =>
    obtain ⟨k, v⟩ := kv
    simp only [envLookup, List.lookup] at h
    cases hbeq : (w == k) with
    | true =>
      rw [hbeq] at h
      cases h
      exact List.mem_cons_self _ _
    | false =>
      rw [hbeq] at h
      exact List.mem_cons_of_mem _ (ih h)

/-- Each iteration of the chain-following loop strictly decreases the
number of dictionary values not yet encountered. -/
theorem chaseMeasure_lt (env : Env) (enc : List Term) (t : Term)
    (hm : t ∈ env.map Prod.snd) (hn : t ∉ enc) :
    chaseMeasure env (enc ++ [t]) < chaseMeasure env enc := by
  unfold chaseMeasure
  have hpred : ∀ s ∈ env.map Prod.snd,
      (!(s ∈ enc ++ [t] : Bool)) = ((!(s = t : Bool)) && (!(s ∈ enc : Bool))) := by
    intro s _
    by_cases h1 : s = t <;> by_cases h2 : s ∈ enc <;> simp [h1, h2]
  rw [List.filter_congr hpred, ← List.filter_filter]
  apply List.length_filter_lt_length_iff_exists.mpr
  refine ⟨t, List.mem_filter.mpr ⟨hm, by simp [hn]⟩, by simp⟩

/-- The chain-following loop of `Var.lookup` terminates on every finite
environment: its result is independent of the fuel once the fuel exceeds
the number of not-yet-encountered dictionary values. -/
theorem chase_stable (f : Nat) : ∀ (g : Nat) (env : Env) (enc : List Term) (b : Term),
    chaseMeasure env enc < f → chaseMeasure env enc < g →
    chase f env enc b = chase g env enc b := by
  induction f with
  | zero => exact fun g env enc b hf _ => absurd hf (Nat.not_lt_zero _)
  | succ f ih =>
    intro g env enc b hf hg
    cases g with
    | zero => exact absurd hg (Nat.not_lt_zero _)
    | succ g =>
      cases b with
      | var w =>
        simp only [chase]
        cases hl : envLookup env w with
        | none => rfl
        | some nxt =>
          by_cases hm : nxt ∈ enc
          · simp [hm]
          · simp only [hm, if_false]
            have hlt := chaseMeasure_lt env enc nxt (lookup_mem_values env w nxt hl) hm
            exact ih g env (enc ++ [nxt]) nxt (by omega) (by omega)
      | atom s => simp [chase]
      | rel p args => simp [chase]
      | clause h b => simp [chase]
      | tnil => simp [chase]
      | tcons a as_ => simp [chase]

/-- The loop measure is bounded by the dictionary size, so the fuel
`env.length + 1` used by `lookupVar` always exceeds it. -/
theorem chaseMeasure_le (env : Env) (enc : List Term) :
    chaseMeasure env enc ≤ env.length := by
  unfold chaseMeasure
  calc ((env.map Prod.snd).filter _).length ≤ (env.map Prod.snd).length :=
        List.length_filter_le _ _
    _ = env.length := List.length_map _ _

/-- The chain-following loop returns its starting term or one of the
dictionary's values. -/
theorem chase_result_shape (f : Nat) : ∀ (env : Env) (enc : List Term) (b : Term),
    chase f env enc b = b ∨ chase f env enc b ∈ env.map Prod.snd := by
  induction f with
  | zero => exact fun env enc b => Or.inl rfl
  | succ f ih =>
    intro env enc b
    cases b with
    | var w =>
      simp only [chase]
      cases hl : envLookup env w with
      | none => exact Or.inl rfl
      | some nxt =>
        by_cases hm : nxt ∈ enc
        · simp [hm]
        · simp only [hm, if_false]
          cases ih env (enc ++ [nxt]) nxt with
          | inl h =>
            refine Or.inr ?_
            rw [h]
            exact lookup_mem_values env w nxt hl
          | inr h => exact Or.inr h
    | atom s => exact Or.inl (by simp [chase])
    | rel p args => exact Or.inl (by simp [chase])
    | clause h b => exact Or.inl (by simp [chase])
    | tnil => exact Or.inl (by simp [chase])
    | tcons a as_ => exact Or.inl (by simp [chase])

/-- On the environment `{x ↦ p(x)}` the source's `Var.lookup` recurses
forever through `Relation.bind_vars`: in the fuel embedding, no amount of
fuel produces a result. -/
theorem lookupVar_cyclic_none (f : Nat) :
    lookupVar f [("x", Term.rel "p" (.tcons (.var "x") .tnil))] "x" = none := by
  induction f with
  | zero => rfl
  | succ f ih => simp [lookupVar, envLookup, List.lookup, chase, bindArgs, ih]

/-- C5 fails as stated: `Var.lookup` does not terminate on every finite
binding environment.  On `{x ↦ p(x)}` the chain-following loop stops at
once (the binding is not a `Var`), but the final term is a `Relation`
embedding the cyclically-bound variable, and the mutual recursion of
`Var.lookup` / `Relation.bind_vars` never returns — no fuel yields a
result. -/
theorem c5_counterexample :
    ¬ ∃ f : Nat, (lookupVar f [("x", Term.rel "p" (.tcons (.var "x") .tnil))] "x") ≠ none := by
  rintro ⟨f, hf⟩
  exact hf (lookupVar_cyclic_none f)

/-- C5 amended: the chain-following loop of `Var.lookup` does terminate on
every finite binding environment, including cyclic variable chains — its
result stabilizes as soon as the fuel exceeds the number of dictionary
values not yet on the visited list (part 1), a bound never above the
dictionary size, so `lookupVar`'s fixed fuel `env.length + 1` is always
sufficient (part 2); and `Var.lookup` as a whole terminates (with the
loop's result) on every environment none of whose values is a `Relation`
— which covers every pure variable chain, cyclic or not (part 3).  It is
only when the chain ends in a `Relation` that the recursive expansion can
diverge, as in the counterexample. -/
theorem c5_amended :
    (∀ (f g : Nat) (env : Env) (enc : List Term) (b : Term),
      chaseMeasure env enc < f → chaseMeasure env enc < g →
      chase f env enc b = chase g env enc b) ∧
    (∀ (env : Env) (enc : List Term), chaseMeasure env enc ≤ env.length) ∧
    (∀ (f : Nat) (env : Env) (v : String),
      (env.map Prod.snd).all (fun t => !(isRel t)) = true →
      lookupVar (f+1) env v = lookupVar 1 env v ∧ (lookupVar 1 env v).isSome = true) := by
  refine ⟨chase_stable, chaseMeasure_le, ?_⟩
  intro f env v hall
  cases hl : envLookup env v with
  | none => exact ⟨by simp [lookupVar, hl], by simp [lookupVar, hl]⟩
  | some b0 =>
    have hres : chase (env.length + 1) env [Term.var v, b0] b0 = b0 ∨
        chase (env.length + 1) env [Term.var v, b0] b0 ∈ env.map Prod.snd :=
      chase_result_shape _ env _ b0
    have hmem : chase (env.length + 1) env [Term.var v, b0] b0 ∈ env.map Prod.snd := by
      cases hres with
      | inl h =>
        rw [h]
        exact lookup_mem_values env v b0 hl
      | inr h => exact h
    have hnr : isRel (chase (env.length + 1) env [Term.var v, b0] b0) = false := by
      have := List.all_eq_true.mp hall _ hmem
      simpa using this
    cases hc : chase (env.length + 1) env [Term.var v, b0] b0 with
    | rel p args =>
      rw [hc] at hnr
      simp [isRel] at hnr
    | atom s => exact ⟨by simp [lookupVar, hl, hc], by simp [lookupVar, hl, hc]⟩
    | var w => exact ⟨by simp [lookupVar, hl, hc], by simp [lookupVar, hl, hc]⟩
    | clause h b => exact ⟨by simp [lookupVar, hl, hc], by simp [lookupVar, hl, hc]⟩
    | tnil => exact ⟨by simp [lookupVar, hl, hc], by simp [lookupVar, hl, hc]⟩
    | tcons a as_ => exact ⟨by simp [lookupVar, hl, hc], by simp [lookupVar, hl, hc]⟩

/-- Witness for C5's amended statement on the cyclic chain
`{x ↦ y, y ↦ x}`: the loop's result is fuel-independent, the measure bound
holds, and lookup of `x` terminates, returning the last visited term `y`. -/
theorem c5_amended_witness :
    chase 3 [("x", Term.var "y"), ("y", Term.var "x")] [Term.var "x", Term.var "y"] (Term.var "y") =
      chase 7 [("x", Term.var "y"), ("y", Term.var "x")] [Term.var "x", Term.var "y"] (Term.var "y") ∧
    chaseMeasure [("x", Term.var "y"), ("y", Term.var "x")] [Term.var "x", Term.var "y"] ≤ 2 ∧
    lookupVar 4 [("x", Term.var "y"), ("y", Term.var "x")] "x" =
      lookupVar 1 [("x", Term.var "y"), ("y", Term.var "x")] "x" ∧
    (lookupVar 1 [("x", Term.var "y"), ("y", Term.var "x")] "x").isSome = true ∧
    lookupVar 1 [("x", Term.var "y"), ("y", Term.var "x")] "x" = some (some (Term.var "y")) := by
  refine ⟨?_, ?_, ?_, ?_, by decide⟩
  · exact c5_amended.1 3 7 _ _ _ (by decide) (by decide)
  · exact c5_amended.2.1 _ _
  · exact (c5_amended.2.2 3 _ "x" (by decide)).1
  · exact (c5_amended.2.2 3 _ "x" (by decide)).2

/-- C3 fails as stated: looking up `x` in
`{x ↦ p(q(y)), y ↦ a}` returns `p(q(y))` with the variable `y` still
embedded in the nested argument relation, even though `y` is bound to `a`
in the same environment — `Relation.bind_vars` only tests top-level
arguments for membership in the dictionary, and a nested `Relation` is
never a dictionary key. -/
theorem c3_counterexample :
    lookupVar 1 [("x", Term.rel "p" (.tcons (.rel "q" (.tcons (.var "y") .tnil)) .tnil)),
        ("y", Term.atom "a")] "x" =
      some (some (Term.rel "p" (.tcons (.rel "q" (.tcons (.var "y") .tnil)) .tnil))) ∧
    Term.var "y" ∈ getVars (Term.rel "p" (.tcons (.rel "q" (.tcons (.var "y") .tnil)) .tnil)) ∧
    envLookup [("x", Term.rel "p" (.tcons (.rel "q" (.tcons (.var "y") .tnil)) .tnil)),
        ("y", Term.atom "a")] "y" = some (Term.atom "a") := by
  refine ⟨by decide, by decide, by decide⟩

/-- C3 amended: when a variable's binding chain ends at a `Relation`,
`Var.lookup` returns that relation with only its *top-level* `Var`
arguments that are bound in the environment resolved — each such argument
is replaced by its own `Var.lookup` through the same environment (part 3);
every other argument — atoms, unbound variables and nested `Relation`s,
whatever variables they embed — is returned unchanged (part 2); part 1
connects `Var.lookup` to this argument walk. -/
theorem c3_amended :
    (∀ (f : Nat) (env : Env) (v : String) (b0 : Term) (p : String) (args : Term),
      envLookup env v = some b0 →
      chase (env.length + 1) env [Term.var v, b0] b0 = .rel p args →
      lookupVar (f+1) env v =
        (bindArgs (lookupVar f env) env args).map (fun l => some (.rel p l))) ∧
    (∀ (lk : String → Option (Option Term)) (env : Env) (args : Term),
      (toList args).all (fun a =>
        match a with | .var w => (envLookup env w).isNone | _ => true) = true →
      bindArgs lk env args = some args) ∧
    (∀ (f : Nat) (env : Env) (w : String) (rest : Term) (t : Term),
      (envLookup env w).isSome = true → lookupVar f env w = some (some t) →
      bindArgs (lookupVar f env) env (.tcons (.var w) rest) =
        (bindArgs (lookupVar f env) env rest).map (.tcons t ·)) := by
  refine ⟨?_, ?_, ?_⟩
  · intro f env v b0 p args hl hc
    simp [lookupVar, hl, hc]
  · intro lk env args hall
    induction args with
    | tcons a as_ ih_a ih_as =>
      simp only [toList, List.all_cons, Bool.and_eq_true] at hall
      obtain ⟨ha, has⟩ := hall
      cases a with
      | var w =>
        simp only [Option.isNone_iff_eq_none] at ha
        simp [bindArgs, ha, ih_as has]
      | atom s => simp [bindArgs, ih_as has]
      | rel p as₂ => simp [bindArgs, ih_as has]
      | clause h b => simp [bindArgs, ih_as has]
      | tnil => simp [bindArgs, ih_as has]
      | tcons a₂ as₂ => simp [bindArgs, ih_as has]
    | atom s => simp [bindArgs]
    | var v => simp [bindArgs]
    | rel p as_ ih => simp [bindArgs]
    | clause h b ih_h ih_b => simp [bindArgs]
    | tnil => simp [bindArgs]
  · intro f env w rest t hs hl
    cases he : envLookup env w with
    | none => rw [he] at hs; simp at hs
    | some u =>
      simp only [bindArgs, he, hl]
      cases bindArgs (lookupVar f env) env rest with
      | none => simp
      | some l => simp

/-- Witness for C3's amended statement on
`{x ↦ p(z, q(y)), z ↦ c, y ↦ a}`: looking up `x` walks the arguments of
`p(z, q(y))`; the bound top-level variable `z` is resolved to `c` via its
own lookup, while the nested relation `q(y)` passes through unchanged. -/
theorem c3_amended_witness :
    lookupVar 2 [("x", Term.rel "p" (.tcons (.var "z") (.tcons (.rel "q" (.tcons (.var "y") .tnil)) .tnil))),
        ("z", Term.atom "c"), ("y", Term.atom "a")] "x" =
      (bindArgs
        (lookupVar 1 [("x", Term.rel "p" (.tcons (.var "z") (.tcons (.rel "q" (.tcons (.var "y") .tnil)) .tnil))),
          ("z", Term.atom "c"), ("y", Term.atom "a")])
        [("x", Term.rel "p" (.tcons (.var "z") (.tcons (.rel "q" (.tcons (.var "y") .tnil)) .tnil))),
          ("z", Term.atom "c"), ("y", Term.atom "a")]
        (.tcons (.var "z") (.tcons (.rel "q" (.tcons (.var "y") .tnil)) .tnil))).map
        (fun l => some (.rel "p" l)) ∧
    bindArgs (lookupVar 1 [("z", Term.atom "c"), ("y", Term.atom "a")])
        [("z", Term.atom "c"), ("y", Term.atom "a")]
        (.tcons (.atom "b") (.tcons (.rel "q" (.tcons (.var "w") .tnil)) .tnil)) =
      some (.tcons (.atom "b") (.tcons (.rel "q" (.tcons (.var "w") .tnil)) .tnil)) ∧
    bindArgs (lookupVar 1 [("z", Term.atom "c"), ("y", Term.atom "a")])
        [("z", Term.atom "c"), ("y", Term.atom "a")]
        (.tcons (.var "z") .tnil) =
      (bindArgs (lookupVar 1 [("z", Term.atom "c"), ("y", Term.atom "a")])
        [("z", Term.atom "c"), ("y", Term.atom "a")] .tnil).map (.tcons (.atom "c") ·) := by
  refine ⟨?_, ?_, ?_⟩
  · exact c3_amended.1 1 _ "x"
      (Term.rel "p" (.tcons (.var "z") (.tcons (.rel "q" (.tcons (.var "y") .tnil)) .tnil))) "p"
      (.tcons (.var "z") (.tcons (.rel "q" (.tcons (.var "y") .tnil)) .tnil))
      (by decide) (by decide)
  · exact c3_amended.2.1 _ _ _ (by decide)
  · exact c3_amended.2.2 1 _ "z" _ _ (by decide) (by decide)

/-- C6: the loop guard of `prove`.  For a candidate clause whose renamed
head unifies with the goal, if the clause after applying the unifier's
bindings has its head structurally equal to one of its own body relations,
the candidate is rejected — the search state is exactly what it would be
starting from the next candidate in stored order, with only the rename
counter advanced.  (The conclusion also covers the candidate being skipped
one line earlier when the unifier is empty: either way it contributes no
success and the loop proceeds in order.) -/
theorem c6_loop_guard (ap : PrimEval) (f : Nat) (goal : Term) (env : Env)
    (db : Db) (cnt : Nat) (rem : List Term) (c : Term) (cs : List Term)
    (u : Option Env) (bound : Term)
    (hu : unify f goal (headOf (recursiveRename c cnt).1) (some env) = some u)
    (hb : bindVarsClause (lookupVar f (u.getD [])) (u.getD []) (recursiveRename c cnt).1 = some bound)
    (hm : headOf bound ∈ toList (bodyOf bound)) :
    proveClauses ap (f+1) goal env db cnt rem (c :: cs) =
      proveClauses ap f goal env db (recursiveRename c cnt).2 rem cs := by
  simp only [proveClauses, engine]
  rw [hu]
  by_cases hfal : isFalsy u = true
  · simp [hfal]
  · simp only [Bool.not_eq_true] at hfal
    simp [hfal, hb, hm]

/-- Witness for C6 with the goal `p(a)` and the candidate clause
`p(X) :- p(X)`: renaming yields `p(var0) :- p(var0)`, unification binds
`var0 ↦ a`, the bound clause is `p(a) :- p(a)` whose head is its body
relation, and the loop proceeds to the remaining candidates with the
counter advanced. -/
theorem c6_loop_guard_witness :
    unify 5 (.rel "p" (.tcons (.atom "a") .tnil))
      (headOf (recursiveRename (.clause (.rel "p" (.tcons (.var "X") .tnil))
        (.tcons (.rel "p" (.tcons (.var "X") .tnil)) .tnil)) 0).1) (some []) =
      some (some [("var0", Term.atom "a")]) ∧
    bindVarsClause (lookupVar 5 [("var0", Term.atom "a")]) [("var0", Term.atom "a")]
      (recursiveRename (.clause (.rel "p" (.tcons (.var "X") .tnil))
        (.tcons (.rel "p" (.tcons (.var "X") .tnil)) .tnil)) 0).1 =
      some (.clause (.rel "p" (.tcons (.atom "a") .tnil))
        (.tcons (.rel "p" (.tcons (.atom "a") .tnil)) .tnil)) ∧
    proveClauses apNone 6 (.rel "p" (.tcons (.atom "a") .tnil)) [] [] 0 []
      [.clause (.rel "p" (.tcons (.var "X") .tnil))
        (.tcons (.rel "p" (.tcons (.var "X") .tnil)) .tnil)] =
      proveClauses apNone 5 (.rel "p" (.tcons (.atom "a") .tnil)) [] [] 1 [] [] := by
  refine ⟨by decide, by decide, ?_⟩
  exact c6_loop_guard apNone 5 _ [] [] 0 [] _ []
    (some [("var0", Term.atom "a")])
    (.clause (.rel "p" (.tcons (.atom "a") .tnil))
      (.tcons (.rel "p" (.tcons (.atom "a") .tnil)) .tnil))
    (by decide) (by decide) (by decide)

/-- Dictionary assignment stores the entry under the name. -/
theorem setKey_lookup (db : Db) (p : String) (e : Entry) :
    (setKey db p e).lookup p = some e := by
  induction db with
  | nil => simp [setKey, List.lookup]
  | cons kv rest ih =>
    obtain ⟨q, e₀⟩ := kv
    by_cases hqp : q = p
    · subst hqp
      simp [setKey, List.lookup]
    · have hbeq : (p == q) = false := beq_eq_false_iff_ne.mpr (Ne.symm hqp)
      simp [setKey, hqp, List.lookup, hbeq, ih]

/-- Appending a fresh key to a dictionary makes it known. -/
theorem lookup_append_fresh (db : Db) (p : String) (e : Entry)
    (h : db.lookup p = none) : (db ++ [(p, e)]).lookup p = some e := by
  induction db with
  | nil => simp [List.lookup]
  | cons kv rest ih =>
    obtain ⟨q, e₀⟩ := kv
    simp only [List.lookup] at h
    cases hbeq : (p == q) with
    | true => rw [hbeq] at h; cases h
    | false =>
      rw [hbeq] at h
      simp only [List.cons_append, List.lookup, hbeq]
      exact ih h

/-- C9: `Database.query(name)` returns exactly what is stored — the clause
list (kept in insertion order: `store` appends at the end of the list held
under the head's predicate, parts 2 and 3) or the primitive procedure
(covered by part 1, which returns any stored entry unchanged) — and an
empty clause list for an unknown name (part 4); `prove` fails when this
lookup yields nothing for the goal's predicate: on failure bindings it
fails outright (part 5), and with live bindings it fails both when the
predicate is unknown (part 6) and when an empty clause list is stored
(part 7). -/
theorem c9_query_prove :
    (∀ (db : Db) (p : String) (e : Entry), db.lookup p = some e →
      query db p = (e, db)) ∧
    (∀ (db : Db) (p : String) (ar bd : Term) (cs : List Term),
      db.lookup p = some (.clauses cs) →
      store (.clause (.rel p ar) bd) db =
        some (setKey db p (.clauses (cs ++ [.clause (.rel p ar) bd])))) ∧
    (∀ (db : Db) (p : String) (e : Entry),
      query (setKey db p e) p = (e, setKey db p e)) ∧
    (∀ (db : Db) (p : String), db.lookup p = none →
      query db p = (.clauses [], db ++ [(p, Entry.clauses [])])) ∧
    (∀ (ap : PrimEval) (f : Nat) (g : Term) (rem : List Term) (db : Db) (cnt : Nat),
      engine ap (f+1) (.one g none rem) db cnt = some (none, db, cnt)) ∧
    (∀ (ap : PrimEval) (f : Nat) (p : String) (args : Term) (env : Env)
        (rem : List Term) (db : Db) (cnt : Nat), db.lookup p = none →
      engine ap (f+1) (.one (.rel p args) (some env) rem) db cnt =
        some (none, db ++ [(p, Entry.clauses [])], cnt)) ∧
    (∀ (ap : PrimEval) (f : Nat) (p : String) (args : Term) (env : Env)
        (rem : List Term) (db : Db) (cnt : Nat), db.lookup p = some (.clauses []) →
      engine ap (f+1) (.one (.rel p args) (some env) rem) db cnt =
        some (none, db, cnt)) := by
  refine ⟨?_, ?_, ?_, ?_, ?_, ?_, ?_⟩
  · intro db p e h
    simp [query, h]
  · intro db p ar bd cs h
    simp [store, h]
  · intro db p e
    simp [query, setKey_lookup]
  · intro db p h
    simp [query, h]
  · intro ap f g rem db cnt
    simp [engine]
  · intro ap f p args env rem db cnt h
    simp [engine, query, predOf, h]
  · intro ap f p args env rem db cnt h
    simp [engine, query, predOf, h]

/-- Witness for C9 on a concrete database holding one fact for `p`, a
primitive under `d`, and an empty clause list under `r`. -/
theorem c9_query_prove_witness :
    query [("p", Entry.clauses [.clause (.rel "p" (.tcons (.atom "a") .tnil)) .tnil])] "p" =
      (Entry.clauses [.clause (.rel "p" (.tcons (.atom "a") .tnil)) .tnil],
       [("p", Entry.clauses [.clause (.rel "p" (.tcons (.atom "a") .tnil)) .tnil])]) ∧
    store (.clause (.rel "p" (.tcons (.atom "b") .tnil)) .tnil)
        [("p", Entry.clauses [.clause (.rel "p" (.tcons (.atom "a") .tnil)) .tnil])] =
      some [("p", Entry.clauses [.clause (.rel "p" (.tcons (.atom "a") .tnil)) .tnil,
        .clause (.rel "p" (.tcons (.atom "b") .tnil)) .tnil])] ∧
    query (setKey [] "d" (Entry.prim 0)) "d" = (Entry.prim 0, setKey [] "d" (Entry.prim 0)) ∧
    query ([] : Db) "q" = (Entry.clauses [], [("q", Entry.clauses [])]) ∧
    engine apNone 4 (.one (.rel "p" (.tcons (.atom "a") .tnil)) none []) [] 0 =
      some (none, [], 0) ∧
    engine apNone 4 (.one (.rel "q" (.tcons (.atom "a") .tnil)) (some []) []) [] 0 =
      some (none, [("q", Entry.clauses [])], 0) ∧
    engine apNone 4 (.one (.rel "r" .tnil) (some []) []) [("r", Entry.clauses [])] 0 =
      some (none, [("r", Entry.clauses [])], 0) := by
  refine ⟨?_, ?_, ?_, ?_, ?_, ?_, ?_⟩
  · exact c9_query_prove.1 _ "p" _ (by decide)
  · have h := c9_query_prove.2.1 [("p", Entry.clauses [.clause (.rel "p" (.tcons (.atom "a") .tnil)) .tnil])]
      "p" (.tcons (.atom "b") .tnil) .tnil
      [.clause (.rel "p" (.tcons (.atom "a") .tnil)) .tnil] (by decide)
    exact h.trans (by decide)
  · exact c9_query_prove.2.2.1 [] "d" (Entry.prim 0)
  · exact c9_query_prove.2.2.2.1 [] "q" (by decide)
  · exact c9_query_prove.2.2.2.2.1 apNone 3 _ [] [] 0
  · exact c9_query_prove.2.2.2.2.2.1 apNone 3 "q" _ [] [] [] 0 (by decide)
  · exact c9_query_prove.2.2.2.2.2.2 apNone 3 "r" _ [] [] _ 0 (by decide)

/-- C10 fails as stated: not *every* `prove` call on a goal with an unknown
predicate mutates the database.  When the bindings argument is the failure
value, `prove` returns `False` before consulting the database: here the
predicate `p` is unknown in the empty database and remains unknown after
the call. -/
theorem c10_counterexample :
    engine apNone 3 (.one (.rel "p" (.tcons (.atom "a") .tnil)) none []) [] 0 =
      some (none, [], 0) ∧
    ([] : Db).lookup "p" = none := by
  exact ⟨by decide, by decide⟩

/-- C10 amended: `Database.query` on an unknown name is indeed not a pure
read — it inserts an empty clause list under the name, which becomes a
known key (parts 1 and 2); and every `prove` call *whose bindings are not
the failure value* on a goal with an unknown predicate mutates the
database the same way (part 3); but a `prove` call with failure bindings
returns before querying and leaves the database untouched (part 4). -/
theorem c10_amended :
    (∀ (db : Db) (p : String), db.lookup p = none →
      query db p = (.clauses [], db ++ [(p, Entry.clauses [])])) ∧
    (∀ (db : Db) (p : String), db.lookup p = none →
      (db ++ [(p, Entry.clauses [])]).lookup p = some (Entry.clauses [])) ∧
    (∀ (ap : PrimEval) (f : Nat) (p : String) (args : Term) (env : Env)
        (rem : List Term) (db : Db) (cnt : Nat), db.lookup p = none →
      engine ap (f+1) (.one (.rel p args) (some env) rem) db cnt =
        some (none, db ++ [(p, Entry.clauses [])], cnt)) ∧
    (∀ (ap : PrimEval) (f : Nat) (g : Term) (rem : List Term) (db : Db) (cnt : Nat),
      engine ap (f+1) (.one g none rem) db cnt = some (none, db, cnt)) := by
  refine ⟨?_, ?_, ?_, ?_⟩
  · intro db p h
    simp [query, h]
  · intro db p h
    exact lookup_append_fresh db p _ h
  · intro ap f p args env rem db cnt h
    simp [engine, query, predOf, h]
  · intro ap f g rem db cnt
    simp [engine]

/-- Witness for C10's amended statement: querying the unknown `p` in a
one-entry database inserts `p ↦ []`, making `p` known, and a live-bindings
`prove` call does the same, while a failure-bindings call leaves the
database alone. -/
theorem c10_amended_witness :
    query [("q", Entry.clauses [])] "p" =
      (Entry.clauses [], [("q", Entry.clauses []), ("p", Entry.clauses [])]) ∧
    ([("q", Entry.clauses []), ("p", Entry.clauses [])] : Db).lookup "p" =
      some (Entry.clauses []) ∧
    engine apNone 2 (.one (.rel "p" .tnil) (some []) []) [("q", Entry.clauses [])] 7 =
      some (none, [("q", Entry.clauses []), ("p", Entry.clauses [])], 7) ∧
    engine apNone 2 (.one (.rel "p" .tnil) none []) [("q", Entry.clauses [])] 7 =
      some (none, [("q", Entry.clauses [])], 7) := by
  refine ⟨?_, ?_, ?_, ?_⟩
  · exact c10_amended.1 [("q", Entry.clauses [])] "p" (by decide)
  · exact c10_amended.2.1 [("q", Entry.clauses [])] "p" (by decide)
  · exact c10_amended.2.2.1 apNone 1 "p" .tnil [] [] [("q", Entry.clauses [])] 7 (by decide)
  · exact c10_amended.2.2.2 apNone 1 _ [] _ 7

/-- The heap-frame relation is reflexive. -/
theorem heapFrame_refl (σ : Heap) : heapFrame σ σ :=
  ⟨Nat.le_refl _, fun _ _ => rfl⟩

/-- The heap-frame relation is transitive. -/
theorem heapFrame_trans {σ₂ σ₁ σ : Heap} (h₂ : heapFrame σ₂ σ₁) (h₁ : heapFrame σ₁ σ) :
    heapFrame σ₂ σ :=
  ⟨Nat.le_trans h₁.1 h₂.1, fun k hk => (h₂.2 k (Nat.lt_of_lt_of_le hk h₁.1)).trans (h₁.2 k hk)⟩

/-- Allocating a fresh cell preserves every existing cell. -/
theorem heapFrame_snoc (σ : Heap) (e : Env) : heapFrame (σ ++ [e]) σ := by
  refine ⟨by simp, fun k hk => ?_⟩
  unfold heapGet
  exact List.getD_append _ _ _ _ hk

/-- Allocating a fresh cell and then mutating that fresh cell preserves
every existing cell (the `bindings[x] = y` step of `unify`, performed on
the copy made by `dict(bindings)`). -/
theorem heapFrame_snoc_set (σ : Heap) (e e' : Env) :
    heapFrame ((σ ++ [e]).set σ.length e') σ := by
  refine ⟨by simp, fun k hk => ?_⟩
  unfold heapGet
  rw [List.getD_eq_getElem?_getD, List.getElem?_set_ne (by omega),
    ← List.getD_eq_getElem?_getD]
  exact (heapFrame_snoc σ e).2 k hk

/-- Result of one heap-level unification call, seen from the caller: the
heap is only extended (frame) and a returned dictionary reference is
always freshly allocated (index at or above the caller's heap size). -/
def unifyStOk (res : Option (Option Nat) × Heap) (σ : Heap) : Prop :=
  heapFrame res.2 σ ∧ ∀ r : Nat, res.1 = some (some r) → σ.length ≤ r

/-- A call satisfying `unifyStOk` on a grown heap also satisfies it on the
original heap. -/
theorem unifyStOk_step {res : Option (Option Nat) × Heap} {σ₁ σ : Heap}
    (h : unifyStOk res σ₁) (hfr : heapFrame σ₁ σ) : unifyStOk res σ :=
  ⟨heapFrame_trans h.1 hfr, fun r hr => Nat.le_trans hfr.1 (h.2 r hr)⟩

/-- Frame and freshness for the heap-level argument loop, given them for
the single-pair unifier: the loop's returned reference is the incoming one
or a fresh one. -/
theorem unifyArgsSt_ok (u : Term → Term → Option Nat → Heap → Option (Option Nat) × Heap)
    (hu : ∀ x y b σ, unifyStOk (u x y b σ) σ) :
    ∀ (xs ys : Term) (b : Option (Option Nat)) (σ : Heap),
      heapFrame (unifyArgsSt u xs ys b σ).2 σ ∧
      ∀ r : Nat, (unifyArgsSt u xs ys b σ).1 = some (some r) →
        b = some (some r) ∨ σ.length ≤ r := by
  intro xs
  induction xs with
  | tcons x xs ih_x ih_xs =>
    intro ys b σ
    cases ys with
    | tcons y ys =>
      cases b with
      | none => exact ⟨heapFrame_refl σ, fun r hr => by cases hr⟩
      | some ob =>
        cases ob with
        | none => exact ⟨heapFrame_refl σ, fun r hr => by simp [unifyArgsSt] at hr⟩
        | some i =>
          have hu1 := hu x y (some i) σ
          have hrec := ih_xs ys (u x y (some i) σ).1 (u x y (some i) σ).2
          constructor
          · exact heapFrame_trans hrec.1 hu1.1
          · intro r hr
            simp only [unifyArgsSt] at hr
            cases hrec.2 r hr with
            | inl h => exact Or.inr (hu1.2 r h)
            | inr h => exact Or.inr (Nat.le_trans hu1.1.1 h)
    | atom s => exact ⟨heapFrame_refl σ, fun r hr => Or.inl hr⟩
    | var v => exact ⟨heapFrame_refl σ, fun r hr => Or.inl hr⟩
    | rel p args => exact ⟨heapFrame_refl σ, fun r hr => Or.inl hr⟩
    | clause h b' => exact ⟨heapFrame_refl σ, fun r hr => Or.inl hr⟩
    | tnil => exact ⟨heapFrame_refl σ, fun r hr => Or.inl hr⟩
  | atom s => exact fun ys b σ => ⟨heapFrame_refl σ, fun r hr => Or.inl hr⟩
  | var v => exact fun ys b σ => ⟨heapFrame_refl σ, fun r hr => Or.inl hr⟩
  | rel p args ih => exact fun ys b σ => ⟨heapFrame_refl σ, fun r hr => Or.inl hr⟩
  | clause h b' ih_h ih_b => exact fun ys b σ => ⟨heapFrame_refl σ, fun r hr => Or.inl hr⟩
  | tnil => exact fun ys b σ => ⟨heapFrame_refl σ, fun r hr => Or.inl hr⟩

/-- Frame and freshness for the heap-level `unify`: a call never changes a
pre-existing heap cell, and any dictionary reference it returns was
allocated during the call. -/
theorem unifySt_ok : ∀ (f : Nat) (x y : Term) (b : Option Nat) (σ : Heap),
    unifyStOk (unifySt f x y b σ) σ := by
  intro f
  induction f with
  | zero => exact fun x y b σ => ⟨heapFrame_refl σ, fun r hr => by cases hr⟩
  | succ f ih =>
    intro x y b σ
    cases b with
    | none => exact ⟨heapFrame_refl σ, fun r hr => by simp [unifySt] at hr⟩
    | some i =>
      simp only [unifySt]
      split
      · exact ⟨heapFrame_snoc σ _, fun r hr => by
          simp only [Option.some.injEq] at hr
          omega⟩
      · split
        · split
          · exact unifyStOk_step (ih _ _ _ _) (heapFrame_snoc σ _)
          · split
            · exact unifyStOk_step (ih _ _ _ _) (heapFrame_snoc σ _)
            · exact ⟨heapFrame_snoc_set σ _ _, fun r hr => by
                simp only [Option.some.injEq] at hr
                omega⟩
        · exact unifyStOk_step (ih _ _ _ _) (heapFrame_snoc σ _)
        · split
          · split
            · rename_i p pa q qa hxy hpq hlen
              have hl := unifyArgsSt_ok (unifySt f) (fun a b' c d => ih a b' c d)
                pa qa (some (some σ.length)) (σ ++ [heapGet σ i])
              constructor
              · exact heapFrame_trans hl.1 (heapFrame_snoc σ _)
              · intro r hr
                cases hl.2 r hr with
                | inl h =>
                  simp only [Option.some.injEq] at h
                  omega
                | inr h => exact Nat.le_trans (heapFrame_snoc σ _).1 h
            · exact ⟨heapFrame_snoc σ _, fun r hr => by cases hr⟩
          · exact ⟨heapFrame_snoc σ _, fun r hr => by cases hr⟩
        · split
          · rename_i h₁ b₁ h₂ b₂ hxy hlen
            have hh := ih h₁ h₂ (some σ.length) (σ ++ [heapGet σ i])
            have hl := unifyArgsSt_ok (unifySt f) (fun a b' c d => ih a b' c d)
              b₁ b₂ (unifySt f h₁ h₂ (some σ.length) (σ ++ [heapGet σ i])).1
              (unifySt f h₁ h₂ (some σ.length) (σ ++ [heapGet σ i])).2
            constructor
            · exact heapFrame_trans hl.1 (heapFrame_trans hh.1 (heapFrame_snoc σ _))
            · intro r hr
              cases hl.2 r hr with
              | inl h => exact Nat.le_trans (heapFrame_snoc σ _).1 (hh.2 r h)
              | inr h =>
                exact Nat.le_trans (heapFrame_snoc σ _).1 (Nat.le_trans hh.1.1 h)
          · exact ⟨heapFrame_snoc σ _, fun r hr => by cases hr⟩
        · exact ⟨heapFrame_snoc σ _, fun r hr => by cases hr⟩

/-- C8: unification never mutates its input binding environment.  At the
heap level, after any call of `unify` every pre-existing dictionary cell —
in particular the caller's environment — holds exactly the bindings it
held before the call, and any environment the call returns lives in a
newly allocated cell. -/
theorem c8_no_mutation (f : Nat) (x y : Term) (b : Option Nat) (σ : Heap) :
    (∀ k, k < σ.length → heapGet (unifySt f x y b σ).2 k = heapGet σ k) ∧
    (∀ r : Nat, (unifySt f x y b σ).1 = some (some r) → σ.length ≤ r) :=
  ⟨(unifySt_ok f x y b σ).1.2, (unifySt_ok f x y b σ).2⟩

/-- Witness for C8: unifying the unbound `y` with `b` against the heap
cell `0` holding `{x ↦ a}` extends a fresh copy (cell `1`) with `y ↦ b`
and leaves cell `0` exactly as it was. -/
theorem c8_no_mutation_witness :
    unifySt 3 (.var "y") (.atom "b") (some 0) [[("x", Term.atom "a")]] =
      (some (some 1), [[("x", Term.atom "a")], [("x", Term.atom "a"), ("y", Term.atom "b")]]) ∧
    (0 : Nat) < ([[("x", Term.atom "a")]] : Heap).length ∧
    heapGet (unifySt 3 (.var "y") (.atom "b") (some 0) [[("x", Term.atom "a")]]).2 0 =
      heapGet [[("x", Term.atom "a")]] 0 ∧
    ([[("x", Term.atom "a")]] : Heap).length ≤ 1 := by
  refine ⟨by decide, by decide, ?_, ?_⟩
  · exact (c8_no_mutation 3 (.var "y") (.atom "b") (some 0) [[("x", Term.atom "a")]]).1 0 (by decide)
  · exact (c8_no_mutation 3 (.var "y") (.atom "b") (some 0) [[("x", Term.atom "a")]]).2 1 (by decide)

/-- C1 is right about the intent but the code violates it: `prove` tests
unification results and subproof results with Python truthiness (`if not
unified`, `if not extended`) instead of comparing against the failure
value, so a *successful empty* binding environment is treated as failure.
Proving the ground goal `p(a)` under the empty environment against a
database holding exactly the ground fact `p(a)` unifies with the fact's
head successfully, yielding the empty environment — and `prove`
nevertheless skips the candidate and fails. -/
theorem c1_empty_env_bug :
    unify 5 (.rel "p" (.tcons (.atom "a") .tnil)) (.rel "p" (.tcons (.atom "a") .tnil)) (some []) =
      some (some []) ∧
    isFalsy (some ([] : Env)) = true ∧
    engine apNone 8 (.one (.rel "p" (.tcons (.atom "a") .tnil)) (some []) [])
        [("p", Entry.clauses [.clause (.rel "p" (.tcons (.atom "a") .tnil)) .tnil])] 0 =
      some (none, [("p", Entry.clauses [.clause (.rel "p" (.tcons (.atom "a") .tnil)) .tnil])], 0) := by
  exact ⟨by decide, by decide, by decide⟩

/-- Witness for C2's amended statement: `unify(p(a), X, {})` delegates to
`unify(X, p(a), {})`, and the distinct unbound variables `x`, `y` in the
empty environment get the binding `x ↦ y`. -/
theorem c2_amended_witness :
    unify 2 (.rel "p" (tlist [.atom "a"])) (.var "x") (some []) =
      unify 1 (.var "x") (.rel "p" (tlist [.atom "a"])) (some []) ∧
    unify 3 (.var "x") (.var "y") (some []) = some (some [("x", .var "y")]) := by
  constructor
  · exact c2_amended.1 1 _ _ [] (by decide) (by decide)
  · exact c2_amended.2 2 "x" "y" [] (by decide) (by decide) (by decide)

end Paip

